import Mathlib

/-!
Verification of the `CPP-SRG/http-message` contract (CSR HTTP message
interfaces, modelled after PSR-7 / RFC 7230).

The repository ships interface headers only (`Message.hpp`,
`ServerRequest.hpp`): every method body is absent by design, with the
behaviour fixed by the doc comments and the accompanying specification.
Accordingly the definitions below are modelled from the specification's
words, each marked `Modelled from the spec:`, and the theorems settle the
specification's claims against that model.
-/

set_option linter.dupNamespace false
set_option maxRecDepth 100000

namespace Csr.Http.Message

/-- ASCII-only lowercase fold of one character: `A`..`Z` map to `a`..`z`,
every other character is unchanged. Locale-independent by construction. -/
def lowerAscii (c : Char) : Char :=
  if 65 ≤ c.toNat ∧ c.toNat ≤ 90 then Char.ofNat (c.toNat + 32) else c

/-- Modelled from the spec: the case-insensitive fold of a header name
("pure, locale-independent ASCII case fold", spec §9), used for lookup and
uniqueness of header entries. -/
def foldName (s : String) : String :=
  String.mk (s.data.map lowerAscii)

/-- Modelled from the spec: a header entry `{ originalName, values }`
(spec §3): the exact casing supplied at first insertion plus the ordered
list of values. -/
structure HeaderEntry where
  originalName : String
  values : List String
  deriving Repr, DecidableEq

/-- Modelled from the spec: the ordered header collection — a sequence of
entries in insertion order, at most one entry per folded name (spec §3). -/
abbrev HeaderCollection := List HeaderEntry

/-- RFC 7230 `tchar`: the characters allowed in a header field name —
digits, letters, and `! # $ % & ' * + - . ^ _ \x60 | ~`. -/
def isTChar (c : Char) : Bool :=
  let n := c.toNat
  (48 ≤ n && n ≤ 57) || (65 ≤ n && n ≤ 90) || (97 ≤ n && n ≤ 122) ||
    n == 33 || (35 ≤ n && n ≤ 39) || n == 42 || n == 43 ||
    n == 45 || n == 46 || n == 94 || n == 95 || n == 96 || n == 124 || n == 126

/-- Modelled from the spec: a valid header field name is a nonempty RFC 7230
token (spec §4.1: fails when the name "is otherwise not a valid HTTP
token"). -/
def isValidHeaderName (s : String) : Bool :=
  !s.data.isEmpty && s.data.all isTChar

/-- Modelled from the spec: a valid header field value contains no control
character — in particular no CR (13) and no LF (10); horizontal tab (9) is
the one control character RFC 7230 admits in a field value. -/
def isValidFieldValue (s : String) : Bool :=
  s.data.all fun c => c.toNat == 9 || (32 ≤ c.toNat && c.toNat != 127)

/-- The error class raised synchronously on malformed input (spec §7:
"InvalidArgument-class error"). -/
inductive HttpError where
  | invalidArgument
  deriving Repr, DecidableEq

/-- First entry whose folded name matches the folded lookup name. -/
def findEntry (hc : HeaderCollection) (name : String) : Option HeaderEntry :=
  hc.find? fun e => foldName e.originalName == foldName name

/-- Modelled from the spec: `hasHeader(name)` — true iff the
case-insensitive fold of `name` matches some entry's folded name
(spec §4.1). -/
def hasHeader (hc : HeaderCollection) (name : String) : Bool :=
  hc.any fun e => foldName e.originalName == foldName name

/-- Modelled from the spec: `getHeaderLine(name)` — the entry's values
joined with `", "`, or the empty string when the name is absent
(spec §4.1). -/
def getHeaderLine (hc : HeaderCollection) (name : String) : String :=
  match findEntry hc name with
  | some e => String.intercalate ", " e.values
  | none => ""

/-- The unvalidated core of `setHeader`: replace the matching entry's value
list with the single value, keeping its stored original-case name; append a
fresh entry carrying `name`'s casing when no entry matches. -/
def setHeaderRaw (hc : HeaderCollection) (name value : String) : HeaderCollection :=
  if hasHeader hc name then
    hc.map fun e =>
      if foldName e.originalName == foldName name then
        { e with values := [value] }
      else e
  else hc ++ [⟨name, [value]⟩]

/-- Modelled from the spec: `setHeader(name, value)` (spec §4.1) — validates
name and value, then replaces or inserts; fails with InvalidArgument on a
malformed name or value, leaving no other effect. -/
def setHeader (hc : HeaderCollection) (name value : String) :
    Except HttpError HeaderCollection :=
  if isValidHeaderName name && isValidFieldValue value then
    .ok (setHeaderRaw hc name value)
  else .error .invalidArgument

/-- The unvalidated core of `setAddedHeader`: append the value to the
matching entry's list, or insert a fresh entry when no entry matches. -/
def setAddedHeaderRaw (hc : HeaderCollection) (name value : String) : HeaderCollection :=
  if hasHeader hc name then
    hc.map fun e =>
      if foldName e.originalName == foldName name then
        { e with values := e.values ++ [value] }
      else e
  else hc ++ [⟨name, [value]⟩]

/-- Modelled from the spec: `setAddedHeader(name, value)` (spec §4.1) — same
validation as `setHeader`, appending instead of replacing. -/
def setAddedHeader (hc : HeaderCollection) (name value : String) :
    Except HttpError HeaderCollection :=
  if isValidHeaderName name && isValidFieldValue value then
    .ok (setAddedHeaderRaw hc name value)
  else .error .invalidArgument

/-- Modelled from the spec: `removeHeader(name)` — deletes the entry with
the matching folded name, a no-op when absent (spec §4.1). -/
def removeHeader (hc : HeaderCollection) (name : String) : HeaderCollection :=
  hc.filter fun e => !(foldName e.originalName == foldName name)

/-- A header-collection mutation, as issued through the Message API. -/
inductive HOp where
  | set (name value : String)
  | add (name value : String)
  | remove (name : String)
  deriving Repr, DecidableEq

/-- Applying one mutation: a call that fails with InvalidArgument leaves the
collection exactly as it was (spec §7: no partial mutation). -/
def applyHOp (hc : HeaderCollection) : HOp → HeaderCollection
  | .set n v => match setHeader hc n v with
    | .ok hc' => hc'
    | .error _ => hc
  | .add n v => match setAddedHeader hc n v with
    | .ok hc' => hc'
    | .error _ => hc
  | .remove n => removeHeader hc n

/-- Applying a finite sequence of mutations, left to right. -/
def applyHOps (hc : HeaderCollection) (ops : List HOp) : HeaderCollection :=
  ops.foldl applyHOp hc

/-- The folded names of a collection's entries, in order. -/
def foldedNames (hc : HeaderCollection) : List String :=
  hc.map fun e => foldName e.originalName

/-- The collection invariant (spec §3): folded names are pairwise distinct
and no entry has an empty value list. -/
def HCInv (hc : HeaderCollection) : Prop :=
  (foldedNames hc).Nodup ∧ ∀ e ∈ hc, e.values ≠ []

/-- Modelled from the spec: a body byte stream (an external collaborator,
spec §6): an identity (so ownership and destruction can be tracked) plus its
current byte content (what a full read of the stream yields). -/
structure Stream where
  id : Nat
  content : String
  deriving Repr, DecidableEq

/-- Modelled from the spec: the base `Message` (spec §3): protocol version,
header collection, the owned body-stream reference (`none` models a null
pointer and is excluded by the invariant), and the ids of streams this
message has destroyed (spec §5: `setBody` must not destroy the prior
stream). -/
structure Message where
  protocolVersion : String
  headers : HeaderCollection
  body : Option Stream
  destroyedStreams : List Nat
  deriving Repr, DecidableEq

/-- Modelled from the spec: the `Message()` constructor — empty headers and
"a fresh, empty, temporary-backed stream" as default body (spec §4.2), here
stream id 0 with empty content. -/
def mkMessage : Message :=
  { protocolVersion := "1.1", headers := [], body := some ⟨0, ""⟩,
    destroyedStreams := [] }

/-- `getBody()`: the currently held body-stream reference. -/
def Message.getBody (m : Message) : Option Stream := m.body

/-- Modelled from the spec: `setBody(stream)` (spec §4.2): a null body fails
with InvalidArgument; otherwise the body reference is replaced and the prior
stream is handed back to the caller with full ownership, not destroyed. -/
def Message.setBody (m : Message) (s : Option Stream) :
    Except HttpError (Message × Stream) :=
  match s with
  | none => .error .invalidArgument
  | some st =>
    .ok ({ m with body := some st }, (m.body).getD ⟨0, ""⟩)

/-- Modelled from the spec: the protocol-version grammar
`digit+ ("." digit+)?` (spec §3). -/
def isValidVersion (s : String) : Bool :=
  match s.splitOn "." with
  | [a] => !a.isEmpty && a.data.all Char.isDigit
  | [a, b] => !a.isEmpty && a.data.all Char.isDigit &&
      !b.isEmpty && b.data.all Char.isDigit
  | _ => false

/-- Modelled from the spec: `setProtocolVersion(v)` (spec §4.2) — InvalidArgument
on a string that is not bare version digits. -/
def Message.setProtocolVersion (m : Message) (v : String) :
    Except HttpError Message :=
  if isValidVersion v then .ok { m with protocolVersion := v }
  else .error .invalidArgument

/-- A mutation of a `Message`, as issued through the public API; failed
calls (InvalidArgument) leave the state unchanged. -/
inductive MOp where
  | hop (o : HOp)
  | setVersion (v : String)
  | setBody (s : Option Stream)
  deriving Repr, DecidableEq

/-- Apply one Message mutation; a failing call is a no-op on the state. -/
def applyMOp (m : Message) : MOp → Message
  | .hop o => { m with headers := applyHOp m.headers o }
  | .setVersion v => match m.setProtocolVersion v with
    | .ok m' => m'
    | .error _ => m
  | .setBody s => match m.setBody s with
    | .ok (m', _) => m'
    | .error _ => m

/-- Apply a finite sequence of Message mutations, left to right. -/
def applyMOps (m : Message) (ops : List MOp) : Message :=
  ops.foldl applyMOp m

/-- Modelled from the spec: `ValueIterator` (spec §4.1) — a cursor over a
snapshot of one header's values, starting before the first element. -/
structure ValueIterator where
  snapshot : List String
  pos : Nat
  deriving Repr, DecidableEq

/-- `ValueIterator::next()`: advance; report whether a value is now
available. -/
def ValueIterator.next (it : ValueIterator) : Bool × ValueIterator :=
  if it.pos < it.snapshot.length then (true, { it with pos := it.pos + 1 })
  else (false, it)

/-- `ValueIterator::reset()`: rewind to the before-first state. -/
def ValueIterator.reset (it : ValueIterator) : ValueIterator :=
  { it with pos := 0 }

/-- `ValueIterator::getValue()`: the current value; the defined empty
sentinel outside the valid range (spec §4.1). -/
def ValueIterator.getValue (it : ValueIterator) : String :=
  if h : it.pos - 1 < it.snapshot.length then it.snapshot.get ⟨it.pos - 1, h⟩
  else ""

/-- Modelled from the spec: `HeaderIterator` (spec §4.1) — a cursor over a
snapshot of the whole collection taken at creation time. -/
structure HeaderIterator where
  snapshot : List HeaderEntry
  pos : Nat
  deriving Repr, DecidableEq

/-- `HeaderIterator::next()`: advance; report whether a header is now
available. -/
def HeaderIterator.next (it : HeaderIterator) : Bool × HeaderIterator :=
  if it.pos < it.snapshot.length then (true, { it with pos := it.pos + 1 })
  else (false, it)

/-- `HeaderIterator::reset()`: rewind to the before-first state. -/
def HeaderIterator.reset (it : HeaderIterator) : HeaderIterator :=
  { it with pos := 0 }

/-- `HeaderIterator::getName()`: the current header's original-case name;
empty sentinel outside the valid range. -/
def HeaderIterator.getName (it : HeaderIterator) : String :=
  if h : it.pos - 1 < it.snapshot.length then
    (it.snapshot.get ⟨it.pos - 1, h⟩).originalName
  else ""

/-- `HeaderIterator::getValues()`: a fresh ValueIterator over a snapshot of
the current header's values. -/
def HeaderIterator.getValues (it : HeaderIterator) : ValueIterator :=
  if h : it.pos - 1 < it.snapshot.length then
    ⟨(it.snapshot.get ⟨it.pos - 1, h⟩).values, 0⟩
  else ⟨[], 0⟩

/-- Modelled from the spec: `getHeaders()` — a HeaderIterator over a
snapshot of all entries in insertion order (spec §4.1). -/
def Message.getHeaders (m : Message) : HeaderIterator :=
  ⟨m.headers, 0⟩

/-- Drain a HeaderIterator through the `next` protocol with explicit fuel,
collecting `(name, values)` for each header it yields. -/
def drainHeadersAux : Nat → HeaderIterator → List (String × List String)
  | 0, _ => []
  | fuel + 1, it =>
    let (b, it') := it.next
    if b then (it'.getName, (it'.getValues).snapshot) :: drainHeadersAux fuel it'
    else []

/-- Fully drain a HeaderIterator: every `(name, values)` pair the two-level
protocol yields, in order. -/
def drainHeaders (it : HeaderIterator) : List (String × List String) :=
  drainHeadersAux (it.snapshot.length - it.pos) it

/-- Drain a ValueIterator through the `next` protocol with explicit fuel. -/
def drainValuesAux : Nat → ValueIterator → List String
  | 0, _ => []
  | fuel + 1, it =>
    let (b, it') := it.next
    if b then it'.getValue :: drainValuesAux fuel it'
    else []

/-- Fully drain a ValueIterator: every value the protocol yields, in
order. -/
def drainValues (it : ValueIterator) : List String :=
  drainValuesAux (it.snapshot.length - it.pos) it

/-- Split a character list at the first `=`: the key is everything before
it, the value everything after; a string without `=` is all key. -/
def splitPairAux : List Char → List Char × List Char
  | [] => ([], [])
  | c :: cs =>
    if c = '=' then ([], cs)
    else
      let (k, v) := splitPairAux cs
      (c :: k, v)

/-- Modelled from the spec: one CGI-style `"key=value"` string converted to
a `(key, value)` pair, the value kept byte-for-byte as given (spec §9:
"convert this once, at construction"; constructor doc: parameters "are taken
precisely as given — no parsing/processing of the given values"). -/
def splitPair (s : String) : String × String :=
  let (k, v) := splitPairAux s.data
  (String.mk k, String.mk v)

/-- Numeric value of a hexadecimal digit character. -/
def hexVal (c : Char) : Nat :=
  if 48 ≤ c.toNat ∧ c.toNat ≤ 57 then c.toNat - 48
  else if 65 ≤ c.toNat ∧ c.toNat ≤ 70 then c.toNat - 55
  else if 97 ≤ c.toNat ∧ c.toNat ≤ 102 then c.toNat - 87
  else 0

/-- Is the character a hexadecimal digit? -/
def isHexDigit (c : Char) : Bool :=
  (48 ≤ c.toNat && c.toNat ≤ 57) || (65 ≤ c.toNat && c.toNat ≤ 70) ||
    (97 ≤ c.toNat && c.toNat ≤ 102)

/-- Percent-decoding over a character list: `%hh` becomes the byte `hh`;
a malformed escape is passed through unchanged. -/
def percentDecodeAux : List Char → List Char
  | [] => []
  | '%' :: c1 :: c2 :: rest =>
    if isHexDigit c1 && isHexDigit c2 then
      Char.ofNat (16 * hexVal c1 + hexVal c2) :: percentDecodeAux rest
    else '%' :: percentDecodeAux (c1 :: c2 :: rest)
  | c :: rest => c :: percentDecodeAux rest

/-- Modelled from the spec: percent-decoding of query/body parameters
(spec §4.3: "percent-decoded `name=value` pairs"). -/
def percentDecode (s : String) : String :=
  String.mk (percentDecodeAux s.data)

/-- Split a character list at every occurrence of the separator. -/
def splitCharAux (sep : Char) : List Char → List Char → List (List Char)
  | [], acc => [acc.reverse]
  | c :: cs, acc =>
    if c = sep then acc.reverse :: splitCharAux sep cs []
    else splitCharAux sep cs (c :: acc)

/-- Split a string at every occurrence of the separator character. -/
def splitChar (s : String) (sep : Char) : List String :=
  (splitCharAux sep s.data []).map String.mk

/-- Is the character a space or horizontal tab? -/
def isWSChar (c : Char) : Bool :=
  c.toNat == 32 || c.toNat == 9

/-- Strip leading and trailing spaces/tabs. -/
def trimWS (s : String) : String :=
  String.mk (((s.data.dropWhile isWSChar).reverse.dropWhile isWSChar).reverse)

/-- Does the string start with the given string? -/
def startsWithStr (s pre : String) : Bool :=
  pre.data.isPrefixOf s.data

/-- Modelled from the spec: parse an `x-www-form-urlencoded` string —
`&`-separated, percent-decoded `name=value` pairs (spec §4.3). -/
def parseUrlencoded (s : String) : List (String × String) :=
  if s.data.isEmpty then []
  else
    (splitChar s '&').map fun kv =>
      let (k, v) := splitPair kv
      (percentDecode k, percentDecode v)

/-- Modelled from the spec: parse a `Cookie` header value — semicolon-
separated `name=value` pairs, surrounding whitespace trimmed, values not
further decoded (spec §4.3). -/
def parseCookies (s : String) : List (String × String) :=
  if s.data.isEmpty then []
  else (splitChar s ';').map fun kv => splitPair (trimWS kv)

/-- The raw query-string component of a URI: everything after the first
`?`, or empty when the URI has none. -/
def queryOf (uri : String) : String :=
  match splitChar uri '?' with
  | _ :: rest => String.intercalate "?" rest
  | [] => ""

/-- Modelled from the spec: the opaque uploaded-file handle produced during
multipart parsing (spec §6): the client-supplied filename plus the part's
content. -/
structure UploadedFile where
  clientFilename : String
  content : String
  deriving Repr, DecidableEq

/-- Strip one leading and one trailing double quote, when present. -/
def stripQuotes (s : String) : String :=
  let l := if s.startsWith "\"" then s.drop 1 else s
  if l.endsWith "\"" then l.dropRight 1 else l

/-- The boundary parameter of a `multipart/form-data` Content-Type value,
or empty when absent. -/
def boundaryOf (ct : String) : String :=
  match (ct.splitOn "boundary=").tail with
  | b :: _ => stripQuotes ((b.split (· = ';')).headD "")
  | [] => ""

/-- The value of a `key="..."` item inside a Content-Disposition header,
scanning the `;`-separated items for `key=`. -/
def dispositionParam (head : String) (key : String) : Option String :=
  ((head.split (· = ';')).map String.trim).findSome? fun item =>
    if item.startsWith (key ++ "=") then
      some (stripQuotes (item.drop (key.length + 1)))
    else none

/-- Modelled from the spec: one multipart part (spec §4.3) — the part
headers are separated from the content by a blank line; a part with a
`filename` becomes an UploadedFile entry under its field `name`, a part
without becomes a body-parameter entry. -/
def parsePart (part : String) : Option (Sum (String × String) (String × UploadedFile)) :=
  match part.splitOn "\r\n\r\n" with
  | head :: rest =>
    let content := String.intercalate "\r\n\r\n" rest
    let content := if content.endsWith "\r\n" then content.dropRight 2 else content
    match dispositionParam head "name" with
    | none => none
    | some nm =>
      match dispositionParam head "filename" with
      | some fn => some (.inr (nm, ⟨fn, content⟩))
      | none => some (.inl (nm, content))
  | [] => none

/-- Modelled from the spec: parse a `multipart/form-data` body (spec §4.3):
split the body at the boundary delimiters; each named part becomes either an
UploadedFile entry (parts with a filename) or a body-parameter entry (parts
without). -/
def parseMultipart (ct body : String) :
    List (String × String) × List (String × UploadedFile) :=
  let boundary := boundaryOf ct
  let chunks := (body.splitOn ("--" ++ boundary)).map fun c =>
    let c := if c.startsWith "\r\n" then c.drop 2 else c
    c
  let parts := chunks.filter fun c => !(c.startsWith "--") && !c.isEmpty
  parts.foldr
    (fun part (bp, uf) =>
      match parsePart part with
      | some (.inl p) => (p :: bp, uf)
      | some (.inr f) => (bp, f :: uf)
      | none => (bp, uf))
    ([], [])

/-- Modelled from the spec: `ServerRequest` (spec §3) — the base Message
plus method, URI, the immutable server-parameter snapshot, the four lazy
caches (`none` is the Unparsed state, `some` the Parsed state), and the
mutable attribute store. -/
structure ServerRequest extends Message where
  method : String
  uri : String
  serverParams : List (String × String)
  cookieParams : Option (List (String × String))
  queryParams : Option (List (String × String))
  bodyParams : Option (List (String × String))
  uploadedFiles : Option (List (String × UploadedFile))
  attributes : List (String × String)
  deriving Repr, DecidableEq

/-- Modelled from the spec: the `ServerRequest(method, uri, serverParams)`
constructor — method and URI taken as given; the flat list of `"key=value"`
strings converted once into the immutable serverParams mapping (spec §9);
all four caches start Unparsed; attributes start empty. -/
def mkServerRequest (method uri : String) (params : List String) : ServerRequest :=
  { toMessage := mkMessage, method, uri,
    serverParams := params.map splitPair,
    cookieParams := none, queryParams := none,
    bodyParams := none, uploadedFiles := none,
    attributes := [] }

/-- First-match lookup in an association list of strings. -/
def alistFind (l : List (String × String)) (k : String) : Option String :=
  (l.find? fun p => p.1 == k).map Prod.snd

/-- Modelled from the spec: `getServerParam(name)` — exact-match,
case-sensitive lookup in the immutable snapshot; absent yields the empty
string (spec §4.3). -/
def ServerRequest.getServerParam (r : ServerRequest) (name : String) : String :=
  (alistFind r.serverParams name).getD ""

/-- The Content-Type header value of the request, via the header API. -/
def ServerRequest.contentType (r : ServerRequest) : String :=
  getHeaderLine r.headers "Content-Type"

/-- Modelled from the spec: the body-parse guard (spec §4.3): parsing is
performed only if the method is POST and the Content-Type is
`application/x-www-form-urlencoded` or `multipart/form-data`. -/
def ServerRequest.bodyParseAllowed (r : ServerRequest) : Bool :=
  r.method == "POST" &&
    (startsWithStr r.contentType "application/x-www-form-urlencoded" ||
      startsWithStr r.contentType "multipart/form-data")

/-- The content a full read of the current body stream yields. -/
def ServerRequest.bodyContent (r : ServerRequest) : String :=
  (r.body.map Stream.content).getD ""

/-- What one body parse produces for the two caches: urlencoded fills body
parameters only; multipart fills both; a blocked guard leaves both empty. -/
def ServerRequest.parseBodyCaches (r : ServerRequest) :
    List (String × String) × List (String × UploadedFile) :=
  if r.bodyParseAllowed then
    if startsWithStr r.contentType "application/x-www-form-urlencoded" then
      (parseUrlencoded r.bodyContent, [])
    else parseMultipart r.contentType r.bodyContent
  else ([], [])

/-- Modelled from the spec: the shared Unparsed→Parsed transition of the
body-parameter and uploaded-file caches: the first access to either
accessor inspects the guard and fills both caches, exactly once
(spec §4.3). -/
def ServerRequest.primeBody (r : ServerRequest) : ServerRequest :=
  if r.bodyParams.isSome then r
  else
    let (bp, uf) := r.parseBodyCaches
    { r with bodyParams := some bp, uploadedFiles := some uf }

/-- Modelled from the spec: `getBodyParam(name)` — lazily parse on first
access, then look the name up in the cache; absent yields the empty string,
never an error (spec §4.3). Returns the value together with the updated
request state. -/
def ServerRequest.getBodyParam (r : ServerRequest) (name : String) :
    String × ServerRequest :=
  let r' := r.primeBody
  ((alistFind (r'.bodyParams.getD []) name).getD "", r')

/-- Modelled from the spec: `getUploadedFile(name)` — lazily parse on first
access, then look the field name up; absent yields null (spec §4.3). -/
def ServerRequest.getUploadedFile (r : ServerRequest) (name : String) :
    Option UploadedFile × ServerRequest :=
  let r' := r.primeBody
  (((r'.uploadedFiles.getD []).find? fun p => p.1 == name).map Prod.snd, r')

/-- Modelled from the spec: the Unparsed→Parsed transition of the cookie
cache: the first access parses the message's Cookie header (spec §4.3). -/
def ServerRequest.primeCookies (r : ServerRequest) : ServerRequest :=
  if r.cookieParams.isSome then r
  else { r with cookieParams := some (parseCookies (getHeaderLine r.headers "Cookie")) }

/-- Modelled from the spec: `getCookieParam(name)` — lazily parse the Cookie
header on first access; absent yields the empty string (spec §4.3). -/
def ServerRequest.getCookieParam (r : ServerRequest) (name : String) :
    String × ServerRequest :=
  let r' := r.primeCookies
  ((alistFind (r'.cookieParams.getD []) name).getD "", r')

/-- Modelled from the spec: the Unparsed→Parsed transition of the query
cache: the first access parses the percent-decoded query-string component
of the request URI (spec §4.3). -/
def ServerRequest.primeQuery (r : ServerRequest) : ServerRequest :=
  if r.queryParams.isSome then r
  else { r with queryParams := some (parseUrlencoded (queryOf r.uri)) }

/-- Modelled from the spec: `getQueryParam(name)` — lazily parse the URI
query on first access; absent yields the empty string (spec §4.3). -/
def ServerRequest.getQueryParam (r : ServerRequest) (name : String) :
    String × ServerRequest :=
  let r' := r.primeQuery
  ((alistFind (r'.queryParams.getD []) name).getD "", r')

/-- Modelled from the spec: `setAttribute(name, value)` — store the derived
attribute, in place, overwriting any previous value for the name
(spec §4.3, with the in-place reading of the declared shape per §9). -/
def ServerRequest.setAttribute (r : ServerRequest) (name value : String) :
    ServerRequest :=
  { r with attributes :=
      (r.attributes.filter fun p => !(p.1 == name)) ++ [(name, value)] }

/-- Modelled from the spec: `removeAttribute(name)` — delete the derived
attribute, a no-op when absent (spec §4.3). -/
def ServerRequest.removeAttribute (r : ServerRequest) (name : String) :
    ServerRequest :=
  { r with attributes := r.attributes.filter fun p => !(p.1 == name) }

/-- Modelled from the spec: `getAttribute(name, def)` — the stored value, or
the supplied default when the attribute is unset (spec §4.3). -/
def ServerRequest.getAttributeDef (r : ServerRequest) (name d : String) : String :=
  (alistFind r.attributes name).getD d

/-- `getAttribute(name)` with the declared default argument: the
`ServerRequest.hpp` declaration fixes `def = ""`, so the one-argument call
uses the empty string as default. -/
def ServerRequest.getAttribute (r : ServerRequest) (name : String) : String :=
  r.getAttributeDef name ""

/-- Any operation of the ServerRequest API: message mutations, a URI update
(Request-level, spec §4.3 contemplates post-construction URI mutation),
attribute mutations, and all lazy accessors with their cache side
effects. -/
inductive SOp where
  | mop (o : MOp)
  | setUri (u : String)
  | attrSet (n v : String)
  | attrRemove (n : String)
  | queryGet (n : String)
  | cookieGet (n : String)
  | bodyGet (n : String)
  | fileGet (n : String)
  | serverGet (n : String)
  | attrGet (n : String)
  deriving Repr, DecidableEq

/-- The state after one ServerRequest API operation (accessors return their
updated state; read-only lookups leave the state as is). -/
def applySOp (r : ServerRequest) : SOp → ServerRequest
  | .mop o => { r with toMessage := applyMOp r.toMessage o }
  | .setUri u => { r with uri := u }
  | .attrSet n v => r.setAttribute n v
  | .attrRemove n => r.removeAttribute n
  | .queryGet n => (r.getQueryParam n).2
  | .cookieGet n => (r.getCookieParam n).2
  | .bodyGet n => (r.getBodyParam n).2
  | .fileGet n => (r.getUploadedFile n).2
  | .serverGet _ => r
  | .attrGet _ => r

/-- The state after a finite sequence of ServerRequest API operations. -/
def applySOps (r : ServerRequest) (ops : List SOp) : ServerRequest :=
  ops.foldl applySOp r

/-- Does the string contain a CR (13) or LF (10) control character? -/
def containsCRorLF (s : String) : Bool :=
  s.data.any fun c => c.toNat == 13 || c.toNat == 10

/-! ### Helper lemmas -/

theorem alistFind_append (l₁ l₂ : List (String × String)) (k : String) :
    alistFind (l₁ ++ l₂) k = (alistFind l₁ k).or (alistFind l₂ k) := by
  simp only [alistFind, List.find?_append]
  cases l₁.find? fun p => p.1 == k <;> rfl

theorem alistFind_filter_ne (l : List (String × String)) (k : String) :
    alistFind (l.filter fun p => !(p.1 == k)) k = none := by
  simp only [alistFind, Option.map_eq_none']
  rw [List.find?_eq_none]
  intro x hx
  rcases List.mem_filter.mp hx with ⟨-, hne⟩
  simpa using hne

theorem serverParams_applySOp (r : ServerRequest) (op : SOp) :
    (applySOp r op).serverParams = r.serverParams := by
  cases op <;>
    simp [applySOp, ServerRequest.getQueryParam, ServerRequest.getCookieParam,
      ServerRequest.getBodyParam, ServerRequest.getUploadedFile,
      ServerRequest.primeQuery, ServerRequest.primeCookies,
      ServerRequest.primeBody, ServerRequest.setAttribute,
      ServerRequest.removeAttribute] <;>
    split <;> rfl

theorem serverParams_applySOps (r : ServerRequest) (ops : List SOp) :
    (applySOps r ops).serverParams = r.serverParams := by
  induction ops generalizing r with
  | nil => rfl
  | cons op ops ih =>
    simpa [applySOps, List.foldl_cons] using
      (ih (applySOp r op)).trans (serverParams_applySOp r op)

theorem splitPairAux_append (k v : List Char) (h : '=' ∉ k) :
    splitPairAux (k ++ '=' :: v) = (k, v) := by
  induction k with
  | nil => simp [splitPairAux]
  | cons c cs ih =>
    have hc : ¬ c = '=' := fun hc => h (hc ▸ List.mem_cons_self c cs)
    have hcs : '=' ∉ cs := fun hm => h (List.mem_cons_of_mem c hm)
    simp [splitPairAux, hc, ih hcs]

theorem splitPair_append (k v : String) (h : '=' ∉ k.data) :
    splitPair (k ++ "=" ++ v) = (k, v) := by
  have heq : ("=" : String).data = ['='] := by decide
  have hdata : (k ++ "=" ++ v).data = k.data ++ '=' :: v.data := by
    rw [String.data_append, String.data_append, heq, List.append_assoc]
    rfl
  unfold splitPair
  rw [hdata, splitPairAux_append k.data v.data h]

theorem body_isSome_applyMOp (m : Message) (op : MOp) (h : m.body.isSome = true) :
    (applyMOp m op).body.isSome = true := by
  cases op with
  | hop o => simpa [applyMOp] using h
  | setVersion v =>
    by_cases hv : isValidVersion v = true <;>
      simpa [applyMOp, Message.setProtocolVersion, hv] using h
  | setBody s =>
    cases s with
    | none => simpa [applyMOp, Message.setBody] using h
    | some st => simp [applyMOp, Message.setBody]

theorem body_isSome_applyMOps (m : Message) (ops : List MOp)
    (h : m.body.isSome = true) : (applyMOps m ops).body.isSome = true := by
  induction ops generalizing m with
  | nil => exact h
  | cons op ops ih =>
    simpa [applyMOps, List.foldl_cons] using
      ih (applyMOp m op) (body_isSome_applyMOp m op h)

theorem crlf_name_invalid (n : String) (h : containsCRorLF n = true) :
    isValidHeaderName n = false := by
  rcases List.any_eq_true.mp h with ⟨c, hc, hcr⟩
  rw [Bool.eq_false_iff]
  intro hvalid
  rcases Bool.and_eq_true_iff.mp hvalid with ⟨-, hall⟩
  have htc := List.all_eq_true.mp hall c hc
  simp only [isTChar, Bool.or_eq_true, Bool.and_eq_true, decide_eq_true_eq,
    beq_iff_eq] at htc
  simp only [Bool.or_eq_true, beq_iff_eq] at hcr
  omega

theorem crlf_value_invalid (v : String) (h : containsCRorLF v = true) :
    isValidFieldValue v = false := by
  rcases List.any_eq_true.mp h with ⟨c, hc, hcr⟩
  rw [Bool.eq_false_iff]
  intro hvalid
  have htc := List.all_eq_true.mp hvalid c hc
  simp only [Bool.or_eq_true, Bool.and_eq_true, decide_eq_true_eq,
    beq_iff_eq, bne_iff_ne, ne_eq] at htc
  simp only [Bool.or_eq_true, beq_iff_eq] at hcr
  omega

/-! ### Claims -/

/-- C9: `getServerParam(name)` is a case-sensitive exact-match lookup in the
server-parameter mapping captured at construction, returning the stored
value unmodified (no decoding of the constructor-supplied `"key=value"`
strings) when the key is present and the empty string when absent; no
ServerRequest API operation ever changes the mapping after construction. -/
theorem getServerParam_exact_absent_immutable :
    (∀ (method uri k v : String) (ps₁ ps₂ : List String),
      '=' ∉ k.data → (∀ s ∈ ps₁, (splitPair s).1 ≠ k) →
      (mkServerRequest method uri
        (ps₁ ++ (k ++ "=" ++ v) :: ps₂)).getServerParam k = v) ∧
    (∀ (method uri k : String) (ps : List String),
      (∀ s ∈ ps, (splitPair s).1 ≠ k) →
      (mkServerRequest method uri ps).getServerParam k = "") ∧
    (∀ (r : ServerRequest) (ops : List SOp),
      (applySOps r ops).serverParams = r.serverParams) := by
  refine ⟨?_, ?_, serverParams_applySOps⟩
  · intro method uri k v ps₁ ps₂ hk hps
    have h1 : alistFind (ps₁.map splitPair) k = none := by
      simp only [alistFind, Option.map_eq_none']
      rw [List.find?_eq_none]
      intro p hp
      rcases List.mem_map.mp hp with ⟨s, hs, rfl⟩
      simpa using hps s hs
    show (alistFind ((ps₁ ++ (k ++ "=" ++ v) :: ps₂).map splitPair) k).getD "" = v
    rw [List.map_append, List.map_cons, splitPair_append k v hk,
      alistFind_append, h1, Option.none_or]
    simp [alistFind, List.find?_cons_of_pos]
  · intro method uri k ps hps
    have h1 : alistFind (ps.map splitPair) k = none := by
      simp only [alistFind, Option.map_eq_none']
      rw [List.find?_eq_none]
      intro p hp
      rcases List.mem_map.mp hp with ⟨s, hs, rfl⟩
      simpa using hps s hs
    show (alistFind (ps.map splitPair) k).getD "" = ""
    rw [h1]
    rfl

/-- Witness for C9 at concrete inputs: the stored value `"%41"` comes back
byte-for-byte (not decoded to `"A"`). -/
theorem getServerParam_exact_witness :
    ('=' ∉ ("C" : String).data) ∧
    (∀ s ∈ (["A=B"] : List String), (splitPair s).1 ≠ "C") ∧
    (mkServerRequest "GET" "/" (["A=B"] ++ ("C" ++ "=" ++ "%41") :: [])).getServerParam "C"
      = "%41" := by
  refine ⟨by decide, by decide, ?_⟩
  exact getServerParam_exact_absent_immutable.1 "GET" "/" "C" "%41" ["A=B"] []
    (by decide) (by decide)

/-- C10: `getAttribute(name)` without a second argument returns the empty
string when the attribute is unset (never set, or removed via
`removeAttribute`), because the declared default for `def` is the empty
string; and after `setAttribute(name, v)`, `getAttribute(name)` returns
`v`. -/
theorem getAttribute_default_and_set :
    (∀ (r : ServerRequest) (k : String),
      alistFind r.attributes k = none → r.getAttribute k = "") ∧
    (∀ (r : ServerRequest) (k : String),
      (r.removeAttribute k).getAttribute k = "") ∧
    (∀ (r : ServerRequest) (k v : String),
      (r.setAttribute k v).getAttribute k = v) := by
  refine ⟨?_, ?_, ?_⟩
  · intro r k h
    simp [ServerRequest.getAttribute, ServerRequest.getAttributeDef, h]
  · intro r k
    show (alistFind (r.attributes.filter fun p => !(p.1 == k)) k).getD "" = ""
    rw [alistFind_filter_ne]
    rfl
  · intro r k v
    show (alistFind ((r.attributes.filter fun p => !(p.1 == k)) ++ [(k, v)]) k).getD "" = v
    rw [alistFind_append, alistFind_filter_ne, Option.none_or]
    simp [alistFind, List.find?_cons_of_pos]

/-- Witness for C10 at concrete inputs: a fresh request has no attribute
`"x"`, its one-argument `getAttribute` yields `""`, and set-then-get yields
the stored value. -/
theorem getAttribute_default_witness :
    alistFind (mkServerRequest "GET" "/" []).attributes "x" = none ∧
    (mkServerRequest "GET" "/" []).getAttribute "x" = "" ∧
    ((mkServerRequest "GET" "/" []).setAttribute "a" "b").getAttribute "a" = "b" := by
  refine ⟨rfl, ?_, ?_⟩
  · exact getAttribute_default_and_set.1 (mkServerRequest "GET" "/" []) "x" rfl
  · exact getAttribute_default_and_set.2.2 (mkServerRequest "GET" "/" []) "a" "b"

/-- C6: `getBody()` never yields null on any API-reachable message (a fresh
Message holds the default temporary-backed stream); `setBody(null)` fails
with InvalidArgument leaving the message unchanged; and `setBody(s)` for
non-null `s` replaces the body reference with `s`, hands the previously held
stream back to the caller, and destroys nothing. -/
theorem getBody_never_null_setBody :
    (∀ ops : List MOp, (applyMOps mkMessage ops).getBody.isSome = true) ∧
    (∀ m : Message,
      m.setBody none = .error .invalidArgument ∧ applyMOp m (.setBody none) = m) ∧
    (∀ (m : Message) (st prior : Stream), m.body = some prior →
      m.setBody (some st) = .ok ({ m with body := some st }, prior)) := by
  refine ⟨?_, ?_, ?_⟩
  · intro ops
    exact body_isSome_applyMOps mkMessage ops rfl
  · intro m
    exact ⟨rfl, rfl⟩
  · intro m st prior h
    simp [Message.setBody, h]

/-- Witness for C6 at concrete inputs: replacing the fresh message's body
returns the default stream to the caller and leaves `destroyedStreams`
empty. -/
theorem getBody_never_null_witness :
    mkMessage.body = some ⟨0, ""⟩ ∧
    mkMessage.setBody (some ⟨1, "x"⟩) =
      .ok ({ mkMessage with body := some ⟨1, "x"⟩ }, ⟨0, ""⟩) := by
  exact ⟨rfl, getBody_never_null_setBody.2.2 mkMessage ⟨1, "x"⟩ ⟨0, ""⟩ rfl⟩

/-- C5: when the name or value contains a CR or LF control character (such
input is neither a valid HTTP token nor a valid field value), `setHeader`
and `setAddedHeader` fail synchronously with the InvalidArgument error and
the header collection is exactly the same after the failed call as
before. -/
theorem setHeader_rejects_crlf :
    ∀ (hc : HeaderCollection) (n v : String),
      (containsCRorLF n || containsCRorLF v) = true →
      setHeader hc n v = .error .invalidArgument ∧
      setAddedHeader hc n v = .error .invalidArgument ∧
      applyHOp hc (.set n v) = hc ∧ applyHOp hc (.add n v) = hc := by
  intro hc n v h
  have hco : (isValidHeaderName n && isValidFieldValue v) = false := by
    rcases Bool.or_eq_true_iff.mp h with hn | hv
    · rw [crlf_name_invalid n hn, Bool.false_and]
    · rw [crlf_value_invalid v hv, Bool.and_false]
  have h1 : setHeader hc n v = .error .invalidArgument := by
    simp [setHeader, hco]
  have h2 : setAddedHeader hc n v = .error .invalidArgument := by
    simp [setAddedHeader, hco]
  refine ⟨h1, h2, ?_, ?_⟩
  · simp [applyHOp, h1]
  · simp [applyHOp, h2]

/-- Witness for C5 at concrete inputs: a CR in the name and an LF in the
value are both rejected, leaving a nonempty collection untouched. -/
theorem setHeader_rejects_crlf_witness :
    (containsCRorLF "X\r" || containsCRorLF "v") = true ∧
    setHeader [⟨"A", ["1"]⟩] "X\r" "v" = .error .invalidArgument ∧
    applyHOp [⟨"A", ["1"]⟩] (.add "X" "a\nb") = [⟨"A", ["1"]⟩] := by
  refine ⟨by decide, ?_, ?_⟩
  · exact (setHeader_rejects_crlf [⟨"A", ["1"]⟩] "X\r" "v" (by decide)).1
  · exact (setHeader_rejects_crlf [⟨"A", ["1"]⟩] "X" "a\nb" (by decide)).2.2.2

instance {ε α : Type} [DecidableEq ε] [DecidableEq α] :
    DecidableEq (Except ε α) := fun a b =>
  match a, b with
  | .ok x, .ok y =>
    if h : x = y then .isTrue (by rw [h])
    else .isFalse (by intro hcon; cases hcon; exact h rfl)
  | .error x, .error y =>
    if h : x = y then .isTrue (by rw [h])
    else .isFalse (by intro hcon; cases hcon; exact h rfl)
  | .ok _, .error _ => .isFalse (by intro hcon; cases hcon)
  | .error _, .ok _ => .isFalse (by intro hcon; cases hcon)

theorem hasHeader_false_findEntry (hc : HeaderCollection) (n : String)
    (h : hasHeader hc n = false) : findEntry hc n = none := by
  rw [findEntry, List.find?_eq_none]
  intro e he hp
  have : hasHeader hc n = true := List.any_eq_true.mpr ⟨e, he, hp⟩
  rw [h] at this
  exact Bool.false_ne_true this

theorem findEntry_some_hasHeader (hc : HeaderCollection) (n : String)
    (e : HeaderEntry) (h : findEntry hc n = some e) : hasHeader hc n = true := by
  rw [findEntry] at h
  have hp := @List.find?_some HeaderEntry
    (fun x => foldName x.originalName == foldName n) e hc h
  exact List.any_eq_true.mpr ⟨e, List.mem_of_find?_eq_some h, hp⟩

theorem originalNames_setHeaderRaw (hc : HeaderCollection) (n v : String)
    (h : hasHeader hc n = true) :
    (setHeaderRaw hc n v).map HeaderEntry.originalName =
      hc.map HeaderEntry.originalName := by
  rw [setHeaderRaw, if_pos h, List.map_map]
  apply List.map_congr_left
  intro e _
  by_cases he : foldName e.originalName = foldName n <;> simp [he]

theorem findEntry_setHeaderRaw (hc : HeaderCollection) (n v : String)
    (h : hasHeader hc n = true) :
    findEntry (setHeaderRaw hc n v) n =
      (findEntry hc n).map fun e => ⟨e.originalName, [v]⟩ := by
  rw [setHeaderRaw, if_pos h, findEntry, List.find?_map]
  have hcomp :
      ((fun e => foldName e.originalName == foldName n) ∘ fun e =>
        if (foldName e.originalName == foldName n) = true then
          { e with values := [v] } else e) =
      fun e : HeaderEntry => foldName e.originalName == foldName n := by
    funext e
    by_cases he : foldName e.originalName = foldName n <;> simp [he]
  rw [hcomp, findEntry]
  cases hfind : hc.find? fun e => foldName e.originalName == foldName n with
  | none => rfl
  | some e =>
    have hpe := List.find?_some hfind
    rw [beq_iff_eq] at hpe
    simp [hpe]

theorem findEntry_setAddedHeaderRaw (hc : HeaderCollection) (n v : String)
    (h : hasHeader hc n = true) :
    findEntry (setAddedHeaderRaw hc n v) n =
      (findEntry hc n).map fun e => ⟨e.originalName, e.values ++ [v]⟩ := by
  rw [setAddedHeaderRaw, if_pos h, findEntry, List.find?_map]
  have hcomp :
      ((fun e => foldName e.originalName == foldName n) ∘ fun e =>
        if (foldName e.originalName == foldName n) = true then
          { e with values := e.values ++ [v] } else e) =
      fun e : HeaderEntry => foldName e.originalName == foldName n := by
    funext e
    by_cases he : foldName e.originalName = foldName n <;> simp [he]
  rw [hcomp, findEntry]
  cases hfind : hc.find? fun e => foldName e.originalName == foldName n with
  | none => rfl
  | some e =>
    have hpe := List.find?_some hfind
    rw [beq_iff_eq] at hpe
    simp [hpe]

theorem setHeader_ok_raw (hc hc' : HeaderCollection) (n v : String)
    (h : setHeader hc n v = .ok hc') : hc' = setHeaderRaw hc n v := by
  rw [setHeader] at h
  split at h
  · exact (Except.ok.inj h).symm
  · exact absurd h (by simp)

theorem setAddedHeader_ok_raw (hc hc' : HeaderCollection) (n v : String)
    (h : setAddedHeader hc n v = .ok hc') : hc' = setAddedHeaderRaw hc n v := by
  rw [setAddedHeader] at h
  split at h
  · exact (Except.ok.inj h).symm
  · exact absurd h (by simp)

/-- C1: a successful `setHeader(name, value)` on a collection that already
holds an entry with the same folded name replaces that entry's value list
with the single value and keeps every stored original-case name (first-seen
casing is what `getHeaders()` later reports); on a collection with no such
entry it appends a new entry carrying `name`'s casing and the single value.
The spec's example: after `setHeader("X-Foo","bar"); setHeader("x-foo","baz")`
exactly one entry remains, named `"X-Foo"`, with line `"baz"`. -/
theorem setHeader_replace_keeps_casing :
    (∀ (hc hc' : HeaderCollection) (n v : String),
      setHeader hc n v = .ok hc' → hasHeader hc n = true →
      hc'.map HeaderEntry.originalName = hc.map HeaderEntry.originalName ∧
      findEntry hc' n = (findEntry hc n).map fun e => ⟨e.originalName, [v]⟩) ∧
    (∀ (hc hc' : HeaderCollection) (n v : String),
      setHeader hc n v = .ok hc' → hasHeader hc n = false →
      hc' = hc ++ [⟨n, [v]⟩]) ∧
    (applyHOps [] [.set "X-Foo" "bar", .set "x-foo" "baz"] =
        [⟨"X-Foo", ["baz"]⟩] ∧
      getHeaderLine (applyHOps [] [.set "X-Foo" "bar", .set "x-foo" "baz"])
        "X-FOO" = "baz") := by
  refine ⟨?_, ?_, by decide, by decide⟩
  · intro hc hc' n v hok h
    rw [setHeader_ok_raw hc hc' n v hok]
    exact ⟨originalNames_setHeaderRaw hc n v h, findEntry_setHeaderRaw hc n v h⟩
  · intro hc hc' n v hok h
    rw [setHeader_ok_raw hc hc' n v hok, setHeaderRaw, if_neg]
    rw [h]
    exact Bool.false_ne_true

/-- Witness for C1 at concrete inputs: a replace on the existing `X-Foo`
entry and an insert on a fresh collection, through the validated API. -/
theorem setHeader_replace_witness :
    setHeader [⟨"X-Foo", ["bar"]⟩] "x-foo" "baz" = .ok [⟨"X-Foo", ["baz"]⟩] ∧
    ([⟨"X-Foo", ["baz"]⟩] : HeaderCollection).map HeaderEntry.originalName =
      [⟨"X-Foo", ["bar"]⟩].map HeaderEntry.originalName ∧
    setHeader [] "X-Foo" "bar" = .ok [⟨"X-Foo", ["bar"]⟩] := by
  have h1 :=
    (setHeader_replace_keeps_casing.1 [⟨"X-Foo", ["bar"]⟩] [⟨"X-Foo", ["baz"]⟩]
      "x-foo" "baz" (by decide) (by decide)).1
  have h2 :=
    setHeader_replace_keeps_casing.2.1 [] [⟨"X-Foo", ["bar"]⟩] "X-Foo" "bar"
      (by decide) (by decide)
  exact ⟨by decide, h1, by decide⟩

/-- C3: `getHeaderLine(name)` joins the matching entry's values with the
two-character separator `", "` in the order the values were added, and
yields the empty string (not an error) when no entry matches;
`setAddedHeader` appends its value at the end of the existing list; the
spec's example: `setHeader("X-Foo","bar"); setAddedHeader("X-Foo","baz")`
gives `getHeaderLine("x-foo") = "bar, baz"`. -/
theorem getHeaderLine_joins_commaspace :
    (∀ (hc : HeaderCollection) (n : String),
      hasHeader hc n = false → getHeaderLine hc n = "") ∧
    (∀ (hc : HeaderCollection) (n : String) (e : HeaderEntry),
      findEntry hc n = some e →
      getHeaderLine hc n = String.intercalate ", " e.values) ∧
    (∀ (hc hc' : HeaderCollection) (n v : String) (e : HeaderEntry),
      findEntry hc n = some e → setAddedHeader hc n v = .ok hc' →
      findEntry hc' n = some ⟨e.originalName, e.values ++ [v]⟩) ∧
    (getHeaderLine (applyHOps [] [.set "X-Foo" "bar", .add "X-Foo" "baz"])
      "x-foo" = "bar, baz") := by
  refine ⟨?_, ?_, ?_, by decide⟩
  · intro hc n h
    rw [getHeaderLine, hasHeader_false_findEntry hc n h]
  · intro hc n e h
    rw [getHeaderLine, h]
  · intro hc hc' n v e hfind hok
    rw [setAddedHeader_ok_raw hc hc' n v hok,
      findEntry_setAddedHeaderRaw hc n v (findEntry_some_hasHeader hc n e hfind),
      hfind, Option.map_some']

/-- Witness for C3 at concrete inputs: absent name yields `""`, a found
entry's line is the `", "`-join, and an appended value lands at the end. -/
theorem getHeaderLine_joins_witness :
    getHeaderLine [⟨"A", ["1"]⟩] "B" = "" ∧
    getHeaderLine [⟨"A", ["1", "2"]⟩] "a" = "1, 2" ∧
    findEntry [⟨"A", ["1", "2"]⟩] "a" = some ⟨"A", ["1"] ++ ["2"]⟩ := by
  refine ⟨?_, ?_, by decide⟩
  · exact getHeaderLine_joins_commaspace.1 [⟨"A", ["1"]⟩] "B" (by decide)
  · exact getHeaderLine_joins_commaspace.2.1 [⟨"A", ["1", "2"]⟩] "a"
      ⟨"A", ["1", "2"]⟩ (by decide)

theorem drainHeadersAux_eq (fuel : Nat) (it : HeaderIterator)
    (h : fuel = it.snapshot.length - it.pos) :
    drainHeadersAux fuel it =
      (it.snapshot.drop it.pos).map fun e => (e.originalName, e.values) := by
  induction fuel generalizing it with
  | zero =>
    have hle : it.snapshot.length ≤ it.pos := by omega
    rw [List.drop_eq_nil_of_le hle]
    rfl
  | succ fuel ih =>
    by_cases hp : it.pos < it.snapshot.length
    · have hnext : it.next = (true, { it with pos := it.pos + 1 }) := by
        simp [HeaderIterator.next, hp]
      have hname : ({ it with pos := it.pos + 1 } : HeaderIterator).getName =
          (it.snapshot.get ⟨it.pos, hp⟩).originalName := by
        simp [HeaderIterator.getName, hp]
      have hvals : ({ it with pos := it.pos + 1 } : HeaderIterator).getValues =
          ⟨(it.snapshot.get ⟨it.pos, hp⟩).values, 0⟩ := by
        simp [HeaderIterator.getValues, hp]
      rw [drainHeadersAux, hnext]
      simp only [if_pos]
      rw [hname, hvals, ih { it with pos := it.pos + 1 } (by simp; omega)]
      rw [List.drop_eq_getElem_cons hp, List.map_cons]
      rfl
    · omega

theorem drainHeaders_eq (it : HeaderIterator) :
    drainHeaders it =
      (it.snapshot.drop it.pos).map fun e => (e.originalName, e.values) :=
  drainHeadersAux_eq _ it rfl

theorem drainValuesAux_eq (fuel : Nat) (it : ValueIterator)
    (h : fuel = it.snapshot.length - it.pos) :
    drainValuesAux fuel it = it.snapshot.drop it.pos := by
  induction fuel generalizing it with
  | zero =>
    have hle : it.snapshot.length ≤ it.pos := by omega
    rw [List.drop_eq_nil_of_le hle]
    rfl
  | succ fuel ih =>
    by_cases hp : it.pos < it.snapshot.length
    · have hnext : it.next = (true, { it with pos := it.pos + 1 }) := by
        simp [ValueIterator.next, hp]
      have hval : ({ it with pos := it.pos + 1 } : ValueIterator).getValue =
          it.snapshot.get ⟨it.pos, hp⟩ := by
        simp [ValueIterator.getValue, hp]
      rw [drainValuesAux, hnext]
      simp only [if_pos]
      rw [hval, ih { it with pos := it.pos + 1 } (by simp; omega)]
      rw [List.drop_eq_getElem_cons hp]
      rfl
    · omega

theorem drainValues_eq (it : ValueIterator) :
    drainValues it = it.snapshot.drop it.pos :=
  drainValuesAux_eq _ it rfl

/-- C7: a HeaderIterator (and a ValueIterator) yields exactly the snapshot
of the collection taken at its creation, and mutations applied to the
message after the iterator was created never change what it yields; two
iterators created before and after a mutation therefore observe their own
creation-time snapshots — demonstrated on a concrete mutation where the two
snapshots differ and the earlier one is unchanged. -/
theorem headerIterator_snapshot_isolation :
    (∀ (m : Message) (ops : List MOp),
      drainHeaders (Message.getHeaders m) =
        m.headers.map (fun e => (e.originalName, e.values)) ∧
      drainHeaders (Message.getHeaders (applyMOps m ops)) =
        (applyMOps m ops).headers.map fun e => (e.originalName, e.values)) ∧
    (∀ vs : List String, drainValues ⟨vs, 0⟩ = vs) ∧
    (drainHeaders (Message.getHeaders
        (applyMOps mkMessage [.hop (.set "A" "1")])) = [("A", ["1"])] ∧
      drainHeaders (Message.getHeaders
        (applyMOps mkMessage [.hop (.set "A" "1"), .hop (.set "A" "2")])) =
        [("A", ["2"])]) := by
  refine ⟨?_, ?_, by decide, by decide⟩
  · intro m ops
    constructor
    · rw [drainHeaders_eq]
      rfl
    · rw [drainHeaders_eq]
      rfl
  · intro vs
    rw [drainValues_eq]
    rfl

theorem hasHeader_fold_congr (hc : HeaderCollection) (n1 n2 : String)
    (h : foldName n1 = foldName n2) : hasHeader hc n1 = hasHeader hc n2 := by
  simp [hasHeader, h]

theorem foldedNames_setHeaderRaw (hc : HeaderCollection) (n v : String)
    (h : hasHeader hc n = true) :
    foldedNames (setHeaderRaw hc n v) = foldedNames hc := by
  rw [foldedNames, foldedNames, setHeaderRaw, if_pos h, List.map_map]
  apply List.map_congr_left
  intro e _
  by_cases he : foldName e.originalName = foldName n <;> simp [he]

theorem foldedNames_setAddedHeaderRaw (hc : HeaderCollection) (n v : String)
    (h : hasHeader hc n = true) :
    foldedNames (setAddedHeaderRaw hc n v) = foldedNames hc := by
  rw [foldedNames, foldedNames, setAddedHeaderRaw, if_pos h, List.map_map]
  apply List.map_congr_left
  intro e _
  by_cases he : foldName e.originalName = foldName n <;> simp [he]

theorem hasHeader_false_not_memFold (hc : HeaderCollection) (n : String)
    (h : hasHeader hc n = false) : foldName n ∉ foldedNames hc := by
  intro hmem
  rcases List.mem_map.mp hmem with ⟨e, he, heq⟩
  have : hasHeader hc n = true := List.any_eq_true.mpr ⟨e, he, by simp [heq]⟩
  rw [h] at this
  exact Bool.false_ne_true this

theorem hcinv_append_new (hc : HeaderCollection) (n v : String)
    (hinv : HCInv hc) (h : hasHeader hc n = false) :
    HCInv (hc ++ [⟨n, [v]⟩]) := by
  constructor
  · rw [foldedNames, List.map_append]
    rw [List.nodup_append]
    refine ⟨hinv.1, List.nodup_singleton _, ?_⟩
    intro x hx hx'
    simp only [List.map_cons, List.map_nil, List.mem_singleton] at hx'
    exact hasHeader_false_not_memFold hc n h (hx' ▸ hx)
  · intro e he
    rcases List.mem_append.mp he with he | he
    · exact hinv.2 e he
    · simp only [List.mem_singleton] at he
      rw [he]
      simp

theorem hcinv_applyHOp (hc : HeaderCollection) (op : HOp) (h : HCInv hc) :
    HCInv (applyHOp hc op) := by
  cases op with
  | set n v =>
    by_cases hval : (isValidHeaderName n && isValidFieldValue v) = true
    · have : applyHOp hc (.set n v) = setHeaderRaw hc n v := by
        simp [applyHOp, setHeader, hval]
      rw [this]
      by_cases hhas : hasHeader hc n = true
      · refine ⟨?_, ?_⟩
        · rw [foldedNames_setHeaderRaw hc n v hhas]
          exact h.1
        · intro e he
          rw [setHeaderRaw, if_pos hhas] at he
          rcases List.mem_map.mp he with ⟨e0, he0, rfl⟩
          by_cases he0f : foldName e0.originalName = foldName n
          · simp [he0f]
          · simpa [he0f] using h.2 e0 he0
      · rw [Bool.not_eq_true] at hhas
        rw [setHeaderRaw, if_neg (by rw [hhas]; exact Bool.false_ne_true)]
        exact hcinv_append_new hc n v h hhas
    · simpa [applyHOp, setHeader, hval] using h
  | add n v =>
    by_cases hval : (isValidHeaderName n && isValidFieldValue v) = true
    · have : applyHOp hc (.add n v) = setAddedHeaderRaw hc n v := by
        simp [applyHOp, setAddedHeader, hval]
      rw [this]
      by_cases hhas : hasHeader hc n = true
      · refine ⟨?_, ?_⟩
        · rw [foldedNames_setAddedHeaderRaw hc n v hhas]
          exact h.1
        · intro e he
          rw [setAddedHeaderRaw, if_pos hhas] at he
          rcases List.mem_map.mp he with ⟨e0, he0, rfl⟩
          by_cases he0f : foldName e0.originalName = foldName n
          · simp [he0f]
          · simpa [he0f] using h.2 e0 he0
      · rw [Bool.not_eq_true] at hhas
        rw [setAddedHeaderRaw, if_neg (by rw [hhas]; exact Bool.false_ne_true)]
        exact hcinv_append_new hc n v h hhas
    · simpa [applyHOp, setAddedHeader, hval] using h
  | remove n =>
    refine ⟨?_, ?_⟩
    · have hsub : (applyHOp hc (.remove n)).Sublist hc := by
        simp only [applyHOp, removeHeader]
        exact List.filter_sublist hc
      have hsub2 : (foldedNames (applyHOp hc (.remove n))).Sublist (foldedNames hc) := by
        rw [foldedNames, foldedNames]
        exact hsub.map _
      exact h.1.sublist hsub2
    · intro e he
      simp only [applyHOp, removeHeader] at he
      exact h.2 e (List.mem_of_mem_filter he)

theorem hcinv_applyHOps (hc : HeaderCollection) (ops : List HOp)
    (h : HCInv hc) : HCInv (applyHOps hc ops) := by
  induction ops generalizing hc with
  | nil => exact h
  | cons op ops ih =>
    simpa [applyHOps, List.foldl_cons] using
      ih (applyHOp hc op) (hcinv_applyHOp hc op h)

/-- C2: after any finite sequence of setHeader/setAddedHeader/removeHeader
mutations on an initially empty collection, `hasHeader` agrees on any two
names with equal ASCII case folds, the collection never holds two entries
with equal folded names, and never holds an entry with an empty value
list. -/
theorem hasHeader_case_insensitive_invariants :
    (∀ (ops : List HOp) (n1 n2 : String), foldName n1 = foldName n2 →
      hasHeader (applyHOps [] ops) n1 = hasHeader (applyHOps [] ops) n2) ∧
    (∀ ops : List HOp, HCInv (applyHOps [] ops)) := by
  constructor
  · intro ops n1 n2 h
    exact hasHeader_fold_congr (applyHOps [] ops) n1 n2 h
  · intro ops
    exact hcinv_applyHOps [] ops ⟨List.nodup_nil, by simp⟩

/-- Witness for C2 at concrete inputs: case-agreement of `hasHeader` after a
mutation sequence that mixes casings, and the invariant after
set/add/remove. -/
theorem hasHeader_case_insensitive_witness :
    foldName "X-FOO" = foldName "x-foo" ∧
    hasHeader (applyHOps [] [.set "X-Foo" "1", .add "x-FOO" "2"]) "X-FOO" =
      hasHeader (applyHOps [] [.set "X-Foo" "1", .add "x-FOO" "2"]) "x-foo" ∧
    HCInv (applyHOps [] [.set "A" "1", .add "a" "2", .remove "A"]) := by
  refine ⟨by decide, ?_, ?_⟩
  · exact hasHeader_case_insensitive_invariants.1
      [.set "X-Foo" "1", .add "x-FOO" "2"] "X-FOO" "x-foo" (by decide)
  · exact hasHeader_case_insensitive_invariants.2
      [.set "A" "1", .add "a" "2", .remove "A"]

theorem applySOp_queryParams_of_isSome (r : ServerRequest) (op : SOp)
    (h : r.queryParams.isSome = true) :
    (applySOp r op).queryParams = r.queryParams := by
  cases op with
  | mop o => rfl
  | setUri u => rfl
  | attrSet n v => rfl
  | attrRemove n => rfl
  | serverGet n => rfl
  | attrGet n => rfl
  | queryGet n =>
    show (ServerRequest.primeQuery r).queryParams = r.queryParams
    rw [ServerRequest.primeQuery, if_pos h]
  | cookieGet n =>
    show (ServerRequest.primeCookies r).queryParams = r.queryParams
    rw [ServerRequest.primeCookies]
    split <;> rfl
  | bodyGet n =>
    show (ServerRequest.primeBody r).queryParams = r.queryParams
    rw [ServerRequest.primeBody]
    split <;> rfl
  | fileGet n =>
    show (ServerRequest.primeBody r).queryParams = r.queryParams
    rw [ServerRequest.primeBody]
    split <;> rfl

theorem applySOp_cookieParams_of_isSome (r : ServerRequest) (op : SOp)
    (h : r.cookieParams.isSome = true) :
    (applySOp r op).cookieParams = r.cookieParams := by
  cases op with
  | mop o => rfl
  | setUri u => rfl
  | attrSet n v => rfl
  | attrRemove n => rfl
  | serverGet n => rfl
  | attrGet n => rfl
  | cookieGet n =>
    show (ServerRequest.primeCookies r).cookieParams = r.cookieParams
    rw [ServerRequest.primeCookies, if_pos h]
  | queryGet n =>
    show (ServerRequest.primeQuery r).cookieParams = r.cookieParams
    rw [ServerRequest.primeQuery]
    split <;> rfl
  | bodyGet n =>
    show (ServerRequest.primeBody r).cookieParams = r.cookieParams
    rw [ServerRequest.primeBody]
    split <;> rfl
  | fileGet n =>
    show (ServerRequest.primeBody r).cookieParams = r.cookieParams
    rw [ServerRequest.primeBody]
    split <;> rfl

theorem applySOp_bodyCaches_of_isSome (r : ServerRequest) (op : SOp)
    (h : r.bodyParams.isSome = true) :
    (applySOp r op).bodyParams = r.bodyParams ∧
      (applySOp r op).uploadedFiles = r.uploadedFiles := by
  cases op with
  | mop o => exact ⟨rfl, rfl⟩
  | setUri u => exact ⟨rfl, rfl⟩
  | attrSet n v => exact ⟨rfl, rfl⟩
  | attrRemove n => exact ⟨rfl, rfl⟩
  | serverGet n => exact ⟨rfl, rfl⟩
  | attrGet n => exact ⟨rfl, rfl⟩
  | bodyGet n =>
    have hpr : ServerRequest.primeBody r = r := by
      rw [ServerRequest.primeBody, if_pos h]
    exact ⟨by rw [show (applySOp r (.bodyGet n)) = ServerRequest.primeBody r from rfl, hpr],
      by rw [show (applySOp r (.bodyGet n)) = ServerRequest.primeBody r from rfl, hpr]⟩
  | fileGet n =>
    have hpr : ServerRequest.primeBody r = r := by
      rw [ServerRequest.primeBody, if_pos h]
    exact ⟨by rw [show (applySOp r (.fileGet n)) = ServerRequest.primeBody r from rfl, hpr],
      by rw [show (applySOp r (.fileGet n)) = ServerRequest.primeBody r from rfl, hpr]⟩
  | queryGet n =>
    constructor
    · show (ServerRequest.primeQuery r).bodyParams = r.bodyParams
      rw [ServerRequest.primeQuery]
      split <;> rfl
    · show (ServerRequest.primeQuery r).uploadedFiles = r.uploadedFiles
      rw [ServerRequest.primeQuery]
      split <;> rfl
  | cookieGet n =>
    constructor
    · show (ServerRequest.primeCookies r).bodyParams = r.bodyParams
      rw [ServerRequest.primeCookies]
      split <;> rfl
    · show (ServerRequest.primeCookies r).uploadedFiles = r.uploadedFiles
      rw [ServerRequest.primeCookies]
      split <;> rfl

theorem applySOps_queryParams_of_isSome (r : ServerRequest) (ops : List SOp)
    (h : r.queryParams.isSome = true) :
    (applySOps r ops).queryParams = r.queryParams := by
  induction ops generalizing r with
  | nil => rfl
  | cons op ops ih =>
    have h1 := applySOp_queryParams_of_isSome r op h
    have h2 : (applySOp r op).queryParams.isSome = true := by rw [h1]; exact h
    calc (applySOps r (op :: ops)).queryParams
        = (applySOps (applySOp r op) ops).queryParams := rfl
      _ = (applySOp r op).queryParams := ih (applySOp r op) h2
      _ = r.queryParams := h1

theorem applySOps_cookieParams_of_isSome (r : ServerRequest) (ops : List SOp)
    (h : r.cookieParams.isSome = true) :
    (applySOps r ops).cookieParams = r.cookieParams := by
  induction ops generalizing r with
  | nil => rfl
  | cons op ops ih =>
    have h1 := applySOp_cookieParams_of_isSome r op h
    have h2 : (applySOp r op).cookieParams.isSome = true := by rw [h1]; exact h
    calc (applySOps r (op :: ops)).cookieParams
        = (applySOps (applySOp r op) ops).cookieParams := rfl
      _ = (applySOp r op).cookieParams := ih (applySOp r op) h2
      _ = r.cookieParams := h1

theorem applySOps_bodyCaches_of_isSome (r : ServerRequest) (ops : List SOp)
    (h : r.bodyParams.isSome = true) :
    (applySOps r ops).bodyParams = r.bodyParams ∧
      (applySOps r ops).uploadedFiles = r.uploadedFiles := by
  induction ops generalizing r with
  | nil => exact ⟨rfl, rfl⟩
  | cons op ops ih =>
    have h1 := applySOp_bodyCaches_of_isSome r op h
    have h2 : (applySOp r op).bodyParams.isSome = true := by rw [h1.1]; exact h
    have h3 := ih (applySOp r op) h2
    exact ⟨h3.1.trans h1.1, h3.2.trans h1.2⟩

theorem getQueryParam_fst_of_isSome (r : ServerRequest) (k : String)
    (h : r.queryParams.isSome = true) :
    (r.getQueryParam k).1 = (alistFind (r.queryParams.getD []) k).getD "" := by
  show (alistFind ((ServerRequest.primeQuery r).queryParams.getD []) k).getD "" = _
  rw [ServerRequest.primeQuery, if_pos h]

theorem getCookieParam_fst_of_isSome (r : ServerRequest) (k : String)
    (h : r.cookieParams.isSome = true) :
    (r.getCookieParam k).1 = (alistFind (r.cookieParams.getD []) k).getD "" := by
  show (alistFind ((ServerRequest.primeCookies r).cookieParams.getD []) k).getD "" = _
  rw [ServerRequest.primeCookies, if_pos h]

theorem getBodyParam_fst_of_isSome (r : ServerRequest) (k : String)
    (h : r.bodyParams.isSome = true) :
    (r.getBodyParam k).1 = (alistFind (r.bodyParams.getD []) k).getD "" := by
  show (alistFind ((ServerRequest.primeBody r).bodyParams.getD []) k).getD "" = _
  rw [ServerRequest.primeBody, if_pos h]

theorem getUploadedFile_fst_of_isSome (r : ServerRequest) (k : String)
    (h : r.bodyParams.isSome = true) :
    (r.getUploadedFile k).1 =
      ((r.uploadedFiles.getD []).find? fun p => p.1 == k).map Prod.snd := by
  show (((ServerRequest.primeBody r).uploadedFiles.getD []).find?
      fun p => p.1 == k).map Prod.snd = _
  rw [ServerRequest.primeBody, if_pos h]

theorem primeQuery_isSome (r : ServerRequest) :
    (ServerRequest.primeQuery r).queryParams.isSome = true := by
  rw [ServerRequest.primeQuery]
  split
  · assumption
  · rfl

theorem primeCookies_isSome (r : ServerRequest) :
    (ServerRequest.primeCookies r).cookieParams.isSome = true := by
  rw [ServerRequest.primeCookies]
  split
  · assumption
  · rfl

theorem primeBody_bodyParams_isSome (r : ServerRequest) :
    (ServerRequest.primeBody r).bodyParams.isSome = true := by
  rw [ServerRequest.primeBody]
  split
  · assumption
  · rfl

theorem primeBody_of_blocked (r : ServerRequest) (hb : r.bodyParams = none)
    (hg : r.bodyParseAllowed = false) :
    ServerRequest.primeBody r =
      { r with bodyParams := some [], uploadedFiles := some [] } := by
  rw [ServerRequest.primeBody, if_neg (by rw [hb]; simp)]
  simp [ServerRequest.parseBodyCaches, hg]

/-- The spec's POST example request: method POST, urlencoded Content-Type,
body `"x=5"`. -/
def examplePostRequest : ServerRequest :=
  applySOps (mkServerRequest "POST" "/submit" [])
    [.mop (.hop (.set "Content-Type" "application/x-www-form-urlencoded")),
     .mop (.setBody (some ⟨1, "x=5"⟩))]

/-- The spec's GET example request: method GET with the same urlencoded
Content-Type and the same non-empty body. -/
def exampleGetRequest : ServerRequest :=
  applySOps (mkServerRequest "GET" "/submit" [])
    [.mop (.hop (.set "Content-Type" "application/x-www-form-urlencoded")),
     .mop (.setBody (some ⟨1, "x=5"⟩))]

/-- C4: body parameters and uploaded files are parsed at the first access to
`getBodyParam`/`getUploadedFile` only when the method is POST and the
Content-Type is urlencoded or multipart; when the guard blocks at that first
access, both caches are empty and stay empty for the object's lifetime, so
every later access returns `""`/null. A GET request with urlencoded
Content-Type and body `"x=5"` yields `""` for every key; the same POST
request yields `getBodyParam("x") = "5"`. -/
theorem bodyParams_guarded_parsing :
    (∀ (r : ServerRequest) (k0 : String) (ops : List SOp) (k : String),
      r.bodyParams = none → r.bodyParseAllowed = false →
      (r.getBodyParam k0).1 = "" ∧
      ((applySOps (r.getBodyParam k0).2 ops).getBodyParam k).1 = "" ∧
      ((applySOps (r.getBodyParam k0).2 ops).getUploadedFile k).1 = none) ∧
    (examplePostRequest.getBodyParam "x").1 = "5" ∧
    (∀ k : String, (exampleGetRequest.getBodyParam k).1 = "") := by
  refine ⟨?_, by decide, ?_⟩
  · intro r k0 ops k hb hg
    have hprime := primeBody_of_blocked r hb hg
    have hbp : ((r.getBodyParam k0).2).bodyParams = some [] := by
      show (ServerRequest.primeBody r).bodyParams = some []
      rw [hprime]
    have huf : ((r.getBodyParam k0).2).uploadedFiles = some [] := by
      show (ServerRequest.primeBody r).uploadedFiles = some []
      rw [hprime]
    have hsome : ((r.getBodyParam k0).2).bodyParams.isSome = true := by
      rw [hbp]; rfl
    have hpres := applySOps_bodyCaches_of_isSome ((r.getBodyParam k0).2) ops hsome
    have hsome' : (applySOps (r.getBodyParam k0).2 ops).bodyParams.isSome = true := by
      rw [hpres.1]; exact hsome
    refine ⟨?_, ?_, ?_⟩
    · show (alistFind ((ServerRequest.primeBody r).bodyParams.getD []) k0).getD "" = ""
      rw [hprime]
      rfl
    · rw [getBodyParam_fst_of_isSome _ _ hsome', hpres.1, hbp]
      rfl
    · rw [getUploadedFile_fst_of_isSome _ _ hsome', hpres.2, huf]
      rfl
  · intro k
    have h : (ServerRequest.primeBody exampleGetRequest).bodyParams = some [] := by
      decide
    show (alistFind ((ServerRequest.primeBody exampleGetRequest).bodyParams.getD [])
      k).getD "" = ""
    rw [h]
    rfl

/-- Witness for C4 at concrete inputs: the GET request's guard blocks
parsing and the caches stay empty across a later mutation. -/
theorem bodyParams_guarded_witness :
    exampleGetRequest.bodyParams = none ∧
    exampleGetRequest.bodyParseAllowed = false ∧
    ((applySOps (exampleGetRequest.getBodyParam "x").2
        [.mop (.setBody (some ⟨2, "y=7"⟩))]).getBodyParam "y").1 = "" := by
  refine ⟨by decide, by decide, ?_⟩
  exact (bodyParams_guarded_parsing.1 exampleGetRequest "x"
    [.mop (.setBody (some ⟨2, "y=7"⟩))] "y" (by decide) (by decide)).2.1

/-- C8: each lazy cache transitions Unparsed→Parsed on the first access to
its accessor and is never recomputed: a second access on a parsed cache is
the identity on the state, a parsed cache's contents survive every later
sequence of API operations (header/body/URI/attribute mutations included),
and the accessor's returned value after the first access equals the value
at any later access. -/
theorem lazy_caches_parse_once :
    (∀ (r : ServerRequest) (k : String),
      ((r.getQueryParam k).2).queryParams.isSome = true ∧
      ((r.getCookieParam k).2).cookieParams.isSome = true ∧
      ((r.getBodyParam k).2).bodyParams.isSome = true) ∧
    (∀ (r : ServerRequest) (k : String),
      (r.queryParams.isSome = true → (r.getQueryParam k).2 = r) ∧
      (r.cookieParams.isSome = true → (r.getCookieParam k).2 = r) ∧
      (r.bodyParams.isSome = true → (r.getBodyParam k).2 = r ∧
        (r.getUploadedFile k).2 = r)) ∧
    (∀ (r : ServerRequest) (ops : List SOp),
      (r.queryParams.isSome = true →
        (applySOps r ops).queryParams = r.queryParams) ∧
      (r.cookieParams.isSome = true →
        (applySOps r ops).cookieParams = r.cookieParams) ∧
      (r.bodyParams.isSome = true →
        (applySOps r ops).bodyParams = r.bodyParams ∧
        (applySOps r ops).uploadedFiles = r.uploadedFiles)) ∧
    (∀ (r : ServerRequest) (k0 k : String) (ops : List SOp),
      ((applySOps (r.getQueryParam k0).2 ops).getQueryParam k).1 =
        ((r.getQueryParam k0).2.getQueryParam k).1 ∧
      ((applySOps (r.getCookieParam k0).2 ops).getCookieParam k).1 =
        ((r.getCookieParam k0).2.getCookieParam k).1 ∧
      ((applySOps (r.getBodyParam k0).2 ops).getBodyParam k).1 =
        ((r.getBodyParam k0).2.getBodyParam k).1 ∧
      ((applySOps (r.getUploadedFile k0).2 ops).getUploadedFile k).1 =
        ((r.getUploadedFile k0).2.getUploadedFile k).1) := by
  refine ⟨?_, ?_, ?_, ?_⟩
  · intro r k
    exact ⟨primeQuery_isSome r, primeCookies_isSome r, primeBody_bodyParams_isSome r⟩
  · intro r k
    refine ⟨?_, ?_, ?_⟩
    · intro h
      show ServerRequest.primeQuery r = r
      rw [ServerRequest.primeQuery, if_pos h]
    · intro h
      show ServerRequest.primeCookies r = r
      rw [ServerRequest.primeCookies, if_pos h]
    · intro h
      constructor <;>
        · show ServerRequest.primeBody r = r
          rw [ServerRequest.primeBody, if_pos h]
  · intro r ops
    exact ⟨applySOps_queryParams_of_isSome r ops,
      applySOps_cookieParams_of_isSome r ops,
      applySOps_bodyCaches_of_isSome r ops⟩
  · intro r k0 k ops
    refine ⟨?_, ?_, ?_, ?_⟩
    · have h1 : ((r.getQueryParam k0).2).queryParams.isSome = true :=
        primeQuery_isSome r
      have h2 := applySOps_queryParams_of_isSome ((r.getQueryParam k0).2) ops h1
      have h3 : (applySOps (r.getQueryParam k0).2 ops).queryParams.isSome = true := by
        rw [h2]; exact h1
      rw [getQueryParam_fst_of_isSome _ _ h3, getQueryParam_fst_of_isSome _ _ h1, h2]
    · have h1 : ((r.getCookieParam k0).2).cookieParams.isSome = true :=
        primeCookies_isSome r
      have h2 := applySOps_cookieParams_of_isSome ((r.getCookieParam k0).2) ops h1
      have h3 : (applySOps (r.getCookieParam k0).2 ops).cookieParams.isSome = true := by
        rw [h2]; exact h1
      rw [getCookieParam_fst_of_isSome _ _ h3, getCookieParam_fst_of_isSome _ _ h1, h2]
    · have h1 : ((r.getBodyParam k0).2).bodyParams.isSome = true :=
        primeBody_bodyParams_isSome r
      have h2 := applySOps_bodyCaches_of_isSome ((r.getBodyParam k0).2) ops h1
      have h3 : (applySOps (r.getBodyParam k0).2 ops).bodyParams.isSome = true := by
        rw [h2.1]; exact h1
      rw [getBodyParam_fst_of_isSome _ _ h3, getBodyParam_fst_of_isSome _ _ h1, h2.1]
    · have h1 : ((r.getUploadedFile k0).2).bodyParams.isSome = true :=
        primeBody_bodyParams_isSome r
      have h2 := applySOps_bodyCaches_of_isSome ((r.getUploadedFile k0).2) ops h1
      have h3 : (applySOps (r.getUploadedFile k0).2 ops).bodyParams.isSome = true := by
        rw [h2.1]; exact h1
      rw [getUploadedFile_fst_of_isSome _ _ h3, getUploadedFile_fst_of_isSome _ _ h1,
        h2.2]

/-- Witness for C8 at concrete inputs: a parsed query cache survives a URI
mutation, and a second access on a parsed cache is the identity. -/
theorem lazy_caches_parse_once_witness :
    (((mkServerRequest "GET" "/p?a=1" []).getQueryParam "a").2).queryParams.isSome
        = true ∧
    (applySOps ((mkServerRequest "GET" "/p?a=1" []).getQueryParam "a").2
        [.setUri "/p?a=9"]).queryParams =
      (((mkServerRequest "GET" "/p?a=1" []).getQueryParam "a").2).queryParams ∧
    ((((mkServerRequest "GET" "/p?a=1" []).getQueryParam "a").2).getQueryParam
        "a").2 =
      ((mkServerRequest "GET" "/p?a=1" []).getQueryParam "a").2 := by
  have h1 : (((mkServerRequest "GET" "/p?a=1" []).getQueryParam "a").2).queryParams.isSome
      = true := by decide
  refine ⟨h1, ?_, ?_⟩
  · exact ((lazy_caches_parse_once.2.2.1
      ((mkServerRequest "GET" "/p?a=1" []).getQueryParam "a").2
      [.setUri "/p?a=9"]).1) h1
  · exact ((lazy_caches_parse_once.2.1
      ((mkServerRequest "GET" "/p?a=1" []).getQueryParam "a").2 "a").1) h1

end Csr.Http.Message
